import Mathlib

/-!
Shallow embedding of the Game of Life automaton core of `src/main.rs`
(struct `GameOfLife` and its methods `new`, `update`, `compute_next_states`,
`count_neighbors`, `draw`, `starting_position`).

Modelling conventions:
* `usize` values are `Nat`, `isize` values are `Int`.
* The Rust cast `x as usize` of an `isize` is `usizeCast` (reduction mod `2 ^ 64`).
* Operations that can panic in Rust (out-of-bounds slice indexing, `% 0`)
  return `Option`; `none` models the panic.
* Rust guarantees every allocation is at most `isize::MAX` bytes, so the
  length of any `Vec` is `< 2 ^ 63`; theorems about grids carry
  `width < 2 ^ 63` / `height < 2 ^ 63` hypotheses where the `as usize`
  reasoning needs them.
-/

/-- The Rust cast `x as usize` applied to an `isize` value: two's-complement
reinterpretation, i.e. reduction modulo `2 ^ 64`. -/
def usizeCast (x : Int) : Nat := (x % (2 ^ 64 : Int)).toNat

/-- `a % b` on `usize`: Rust panics when `b = 0`; `none` models the panic. -/
def checkedMod (a b : Nat) : Option Nat :=
  if b = 0 then none else some (a % b)

/-- The read `cells[r][c]`: Rust panics when an index is out of range;
`none` models the panic. -/
def getCell (cells : List (List Bool)) (r c : Nat) : Option Bool := do
  let rowL ← cells.get? r
  rowL.get? c

/-- The write `cells[r][c] = v`: Rust panics when an index is out of range;
`none` models the panic. -/
def setCell (cells : List (List Bool)) (r c : Nat) (v : Bool) :
    Option (List (List Bool)) := do
  let rowL ← cells.get? r
  if c < rowL.length then some (cells.set r (rowL.set c v)) else none

/-- The struct `GameOfLife { width: usize, height: usize, cells: Vec<Vec<bool>> }`. -/
structure GameOfLife where
  width : Nat
  height : Nat
  cells : List (List Bool)
deriving DecidableEq

/-- `GameOfLife::new`: grid of `height` rows of `width` dead cells.
The Rust code performs no validation of the dimensions. -/
def GameOfLife.new (width height : Nat) : GameOfLife :=
  { width := width, height := height,
    cells := List.replicate height (List.replicate width false) }

/-- The iteration order of the nested loop
`for dr in -1..=1 { for dc in -1..=1 { if dr == 0 && dc == 0 { continue } ... } }`
in `count_neighbors`, unrolled (the `continue` drops `(0, 0)`). -/
def neighborOffsets : List (Int × Int) :=
  [(-1, -1), (-1, 0), (-1, 1), (0, -1), (0, 1), (1, -1), (1, 0), (1, 1)]

/-- `GameOfLife::count_neighbors`: for each of the 8 offsets, wrap the
neighbor coordinates as
`(row as isize + dr + height as isize) as usize % height` (and likewise for
the column) and count the live cells found there. -/
def GameOfLife.count_neighbors (g : GameOfLife) (row col : Nat) : Option Nat :=
  neighborOffsets.foldlM (fun count p => do
    let row_neighbor ← checkedMod (usizeCast ((row : Int) + p.1 + (g.height : Int))) g.height
    let col_neighbor ← checkedMod (usizeCast ((col : Int) + p.2 + (g.width : Int))) g.width
    let b ← getCell g.cells row_neighbor col_neighbor
    pure (if b then count + 1 else count)) 0

/-- `GameOfLife::compute_next_states`: the B3/S23 rule applied to the
current cell and its live-neighbor count. -/
def GameOfLife.compute_next_states (g : GameOfLife) (row col : Nat) : Option Bool := do
  let alive_neighbors ← g.count_neighbors row col
  let cur ← getCell g.cells row col
  pure (match cur, alive_neighbors with
        | true, 2 | true, 3 => true
        | false, 3 => true
        | _, _ => false)

/-- `GameOfLife::update`: build the whole next field from the previous one,
then replace `cells` with it. -/
def GameOfLife.update (g : GameOfLife) : Option GameOfLife := do
  let new_cells ← (List.range g.height).mapM (fun row =>
    (List.range g.width).mapM (fun col => g.compute_next_states row col))
  pure { g with cells := new_cells }

/-- `update` applied `n` times (the spec's "any number of steps"). -/
def GameOfLife.updateN (g : GameOfLife) : Nat → Option GameOfLife
  | 0 => some g
  | n + 1 => g.update.bind (fun g2 => g2.updateN n)

/-- The write `screen[i] = v`: Rust panics when `i` is out of range;
`none` models the panic. -/
def writeByte (screen : List Nat) (i v : Nat) : Option (List Nat) :=
  if i < screen.length then some (screen.set i v) else none

/-- `GameOfLife::draw`: for every cell, write 4 RGBA bytes (black when alive,
white when dead, alpha `0xFF`) at offset `(row * width + col) * 4` of the
caller-supplied byte buffer. -/
def GameOfLife.draw (g : GameOfLife) (screen : List Nat) : Option (List Nat) :=
  (List.range g.height).foldlM (fun s row =>
    (List.range g.width).foldlM (fun s col => do
      let index := (row * g.width + col) * 4
      let b ← getCell g.cells row col
      let color : List Nat := if b then [0x00, 0x00, 0x00] else [0xFF, 0xFF, 0xFF]
      let s1 ← writeByte s index (color.getD 0 0)
      let s2 ← writeByte s1 (index + 1) (color.getD 1 0)
      let s3 ← writeByte s2 (index + 2) (color.getD 2 0)
      writeByte s3 (index + 3) 0xFF) s) screen

/-- The array `offsets` of `GameOfLife::starting_position`. -/
def seedOffsets : List (Int × Int) := [(-1, -1), (-1, 0), (0, -2), (0, -1), (1, -1)]

/-- `GameOfLife::starting_position`: for each offset, compute
`(middle as isize + d) as usize` for row and column and set the cell alive
when both results pass the `row < height && col < width` check. -/
def GameOfLife.starting_position (g : GameOfLife) : Option GameOfLife := do
  let middle_row := g.height / 2
  let middle_col := g.width / 2
  let new_cells ← seedOffsets.foldlM (fun cells p => do
    let row := usizeCast ((middle_row : Int) + p.1)
    let col := usizeCast ((middle_col : Int) + p.2)
    if row < g.height ∧ col < g.width then setCell cells row col true
    else pure cells) g.cells
  pure { g with cells := new_cells }

/-! ### Derived notions used to state the claims -/

/-- Total read of cell `(r, c)` (`false` outside the field); used only to
state properties of grids, never inside the embedded operations. -/
def cellAt (g : GameOfLife) (r c : Nat) : Bool := (g.cells.getD r []).getD c false

/-- Spec-side toroidal wrap: the claim's "`(i + d) mod n`" with the
mathematical (sign-respecting, nonnegative) modulus. -/
def specWrap (n i : Nat) (d : Int) : Nat := (((i : Int) + d) % (n : Int)).toNat

/-- Spec-side neighbor count, written from the claim's words: the number of
live cells among the 8 toroidally wrapped positions
`((row + dr) mod height, (col + dc) mod width)`. -/
def specNeighborCount (g : GameOfLife) (row col : Nat) : Nat :=
  (neighborOffsets.filter (fun p =>
    cellAt g (specWrap g.height row p.1) (specWrap g.width col p.2))).length

/-- The shape invariant of the data model: `cells` has exactly `height`
rows of exactly `width` booleans. -/
def GameOfLife.wf (g : GameOfLife) : Prop :=
  g.cells.length = g.height ∧ ∀ rowL ∈ g.cells, rowL.length = g.width

instance (g : GameOfLife) : Decidable g.wf := by
  unfold GameOfLife.wf; infer_instance

/-- The live cells of a grid, in row-major order. -/
def liveList (g : GameOfLife) : List (Nat × Nat) :=
  (List.range g.height).flatMap (fun r =>
    ((List.range g.width).filter (fun c => cellAt g r c)).map (fun c => (r, c)))

/-- Spec-side seed positions of an arbitrary offset list: the offsets
relative to the center `(height / 2, width / 2)` whose result lies inside
`[0, height) × [0, width)`. -/
def seedCellsOf (g : GameOfLife) (l : List (Int × Int)) : List (Nat × Nat) :=
  l.filterMap (fun p =>
    if 0 ≤ ((g.height / 2 : Nat) : Int) + p.1 ∧
        ((g.height / 2 : Nat) : Int) + p.1 < (g.height : Int) ∧
        0 ≤ ((g.width / 2 : Nat) : Int) + p.2 ∧
        ((g.width / 2 : Nat) : Int) + p.2 < (g.width : Int) then
      some ((((g.height / 2 : Nat) : Int) + p.1).toNat,
        (((g.width / 2 : Nat) : Int) + p.2).toNat)
    else none)

/-- Spec-side seed positions, written from the claim's words: the five
fixed offsets relative to the center whose result lies inside
`[0, height) × [0, width)` (offsets falling outside are skipped). -/
def seedCells (g : GameOfLife) : List (Nat × Nat) :=
  seedCellsOf g seedOffsets

/-- Spec-side next state of one cell, written from the claim's words: the
B3/S23 rule applied to `cellAt` and the toroidal `specNeighborCount`. -/
def nextCell (g : GameOfLife) (row col : Nat) : Bool :=
  match cellAt g row col, specNeighborCount g row col with
  | true, 2 | true, 3 => true
  | false, 3 => true
  | _, _ => false

/-- Spec-side whole-grid step: every cell replaced by `nextCell` of the
pre-step grid. -/
def stepped (g : GameOfLife) : GameOfLife :=
  { g with cells := (List.range g.height).map (fun row =>
      (List.range g.width).map (fun col => nextCell g row col)) }

/-- Every cell of the grid is dead. -/
def GameOfLife.allDead (g : GameOfLife) : Prop :=
  ∀ rowL ∈ g.cells, ∀ b ∈ rowL, b = false

instance (g : GameOfLife) : Decidable g.allDead := by
  unfold GameOfLife.allDead; infer_instance

/-- Cell coordinates recast as integers (to compare against translates). -/
def intPairs (l : List (Nat × Nat)) : List (Int × Int) :=
  l.map (fun rc => ((rc.1 : Int), (rc.2 : Int)))

/-- A list of cell coordinates translated by the vector `d`. -/
def translateBy (d : Int × Int) (l : List (Nat × Nat)) : List (Int × Int) :=
  l.map (fun rc => ((rc.1 : Int) + d.1, (rc.2 : Int) + d.2))

/-! ### Arithmetic of the usize cast and the toroidal wrap -/

theorem usizeCast_eq_toNat {x : Int} (h0 : 0 ≤ x) (h1 : x < 2 ^ 64) :
    usizeCast x = x.toNat := by
  unfold usizeCast
  rw [Int.emod_eq_of_lt h0 h1]

theorem specWrap_lt {n : Nat} (hn : 0 < n) (i : Nat) (d : Int) : specWrap n i d < n := by
  unfold specWrap
  have hn0 : (n : Int) ≠ 0 := by exact_mod_cast hn.ne'
  have h1 : 0 ≤ ((i : Int) + d) % (n : Int) := Int.emod_nonneg _ hn0
  have h2 : ((i : Int) + d) % (n : Int) < (n : Int) :=
    Int.emod_lt_of_pos _ (by exact_mod_cast hn)
  omega

theorem checkedMod_usizeCast_eq {n i : Nat} {d : Int} (hn : 0 < n) (hn2 : n < 2 ^ 63)
    (hi : i < n) (hd1 : -1 ≤ d) (hd2 : d ≤ 1) :
    checkedMod (usizeCast ((i : Int) + d + (n : Int))) n = some (specWrap n i d) := by
  have hiZ : (i : Int) < (n : Int) := by exact_mod_cast hi
  have hn2Z : (n : Int) < 2 ^ 63 := by exact_mod_cast hn2
  have hnZ : (0 : Int) < (n : Int) := by exact_mod_cast hn
  have h0 : 0 ≤ (i : Int) + d + (n : Int) := by omega
  have h1 : (i : Int) + d + (n : Int) < 2 ^ 64 := by omega
  rw [usizeCast_eq_toNat h0 h1]
  unfold checkedMod
  rw [if_neg hn.ne']
  congr 1
  unfold specWrap
  have hmodeq : ((i : Int) + d + (n : Int)) % (n : Int) = ((i : Int) + d) % (n : Int) := by
    simp
  have hmn : 0 ≤ ((i : Int) + d) % (n : Int) := Int.emod_nonneg _ hnZ.ne'
  have hcast : ((((i : Int) + d + (n : Int)).toNat % n : Nat) : Int)
      = ((i : Int) + d) % (n : Int) := by
    push_cast [Int.toNat_of_nonneg h0]
    exact hmodeq
  omega

/-! ### Cell access -/

theorem getCell_eq {g : GameOfLife} (hwf : g.wf) {r c : Nat}
    (hr : r < g.height) (hc : c < g.width) :
    getCell g.cells r c = some (cellAt g r c) := by
  obtain ⟨hlen, hrows⟩ := hwf
  have hr2 : r < g.cells.length := by omega
  have hrl : g.cells[r].length = g.width := hrows _ (List.getElem_mem hr2)
  have hc2 : c < g.cells[r].length := by omega
  unfold getCell cellAt
  simp [List.getD_eq_getElem?_getD, List.getElem?_eq_getElem hr2, List.getElem?_eq_getElem hc2]

/-! ### mapM over Option -/

theorem mapM_eq_some_map {α β : Type} (f : α → Option β) (gp : α → β) (l : List α)
    (h : ∀ a ∈ l, f a = some (gp a)) : l.mapM f = some (l.map gp) := by
  induction l with
  | nil => rfl
  | cons a t ih =>
    rw [List.mapM_cons, h a (List.mem_cons_self a t),
      ih (fun x hx => h x (List.mem_cons_of_mem a hx))]
    rfl

/-! ### Characterizing the neighbor count -/

theorem count_fold {g : GameOfLife} (hwf : g.wf) (hh : 0 < g.height)
    (hh2 : g.height < 2 ^ 63) (hw : 0 < g.width) (hw2 : g.width < 2 ^ 63)
    {row col : Nat} (hrow : row < g.height) (hcol : col < g.width) :
    ∀ l : List (Int × Int),
      (∀ p ∈ l, (-1 ≤ p.1 ∧ p.1 ≤ 1) ∧ (-1 ≤ p.2 ∧ p.2 ≤ 1)) → ∀ init : Nat,
      (l.foldlM (fun count p => do
        let row_neighbor ← checkedMod (usizeCast ((row : Int) + p.1 + (g.height : Int))) g.height
        let col_neighbor ← checkedMod (usizeCast ((col : Int) + p.2 + (g.width : Int))) g.width
        let b ← getCell g.cells row_neighbor col_neighbor
        pure (if b then count + 1 else count)) init : Option Nat)
      = some (init + (l.filter (fun p =>
          cellAt g (specWrap g.height row p.1) (specWrap g.width col p.2))).length) := by
  intro l
  induction l with
  | nil => intro _ init; simp
  | cons p t ih =>
    intro hb init
    obtain ⟨⟨h1, h2⟩, h3, h4⟩ := hb p (List.mem_cons_self p t)
    simp only [Option.bind_eq_bind, Option.pure_def] at ih
    rw [List.foldlM_cons, checkedMod_usizeCast_eq hh hh2 hrow h1 h2,
      checkedMod_usizeCast_eq hw hw2 hcol h3 h4]
    simp only [Option.bind_eq_bind, Option.pure_def, Option.some_bind]
    rw [getCell_eq hwf (specWrap_lt hh row p.1) (specWrap_lt hw col p.2)]
    simp only [Option.some_bind, Option.pure_def]
    cases hcell : cellAt g (specWrap g.height row p.1) (specWrap g.width col p.2) with
    | false =>
      simp only [hcell, Bool.false_eq_true, if_false]
      rw [ih (fun x hx => hb x (List.mem_cons_of_mem p hx)) init]
      simp [List.filter_cons, hcell]
    | true =>
      simp only [hcell, if_true]
      rw [ih (fun x hx => hb x (List.mem_cons_of_mem p hx)) (init + 1)]
      simp [List.filter_cons, hcell]
      omega

theorem count_neighbors_eq {g : GameOfLife} (hwf : g.wf) (hh : 0 < g.height)
    (hh2 : g.height < 2 ^ 63) (hw : 0 < g.width) (hw2 : g.width < 2 ^ 63)
    {row col : Nat} (hrow : row < g.height) (hcol : col < g.width) :
    g.count_neighbors row col = some (specNeighborCount g row col) := by
  unfold GameOfLife.count_neighbors specNeighborCount
  have h := count_fold hwf hh hh2 hw hw2 hrow hcol neighborOffsets (by decide) 0
  simpa using h

/-! ### Characterizing one whole step -/

theorem compute_next_states_eq {g : GameOfLife} (hwf : g.wf) (hh : 0 < g.height)
    (hh2 : g.height < 2 ^ 63) (hw : 0 < g.width) (hw2 : g.width < 2 ^ 63)
    {row col : Nat} (hrow : row < g.height) (hcol : col < g.width) :
    g.compute_next_states row col = some (nextCell g row col) := by
  unfold GameOfLife.compute_next_states nextCell
  rw [count_neighbors_eq hwf hh hh2 hw hw2 hrow hcol, getCell_eq hwf hrow hcol]
  rfl

theorem update_eq {g : GameOfLife} (hwf : g.wf) (hh : 0 < g.height)
    (hh2 : g.height < 2 ^ 63) (hw : 0 < g.width) (hw2 : g.width < 2 ^ 63) :
    g.update = some (stepped g) := by
  have hinner : ∀ row ∈ List.range g.height,
      (List.range g.width).mapM (fun col => g.compute_next_states row col)
        = some ((List.range g.width).map (fun col => nextCell g row col)) :=
    fun row hrowmem => mapM_eq_some_map _ _ _ (fun col hcolmem =>
      compute_next_states_eq hwf hh hh2 hw hw2
        (List.mem_range.1 hrowmem) (List.mem_range.1 hcolmem))
  unfold GameOfLife.update stepped
  rw [mapM_eq_some_map _ _ _ hinner]
  rfl

theorem stepped_wf (g : GameOfLife) : (stepped g).wf := by
  constructor
  · simp [stepped]
  · intro rowL hmem
    simp only [stepped] at hmem
    obtain ⟨row, _, rfl⟩ := List.mem_map.1 hmem
    simp [stepped]

theorem cellAt_stepped {g : GameOfLife} {r c : Nat} (hr : r < g.height) (hc : c < g.width) :
    cellAt (stepped g) r c = nextCell g r c := by
  simp [cellAt, stepped, List.getD_eq_getElem?_getD, List.getElem?_map,
    List.getElem?_range, hr, hc]

theorem nextCell_eq (g : GameOfLife) (row col : Nat) :
    nextCell g row col =
      ((cellAt g row col &&
          (specNeighborCount g row col == 2 || specNeighborCount g row col == 3)) ||
       (!cellAt g row col && (specNeighborCount g row col == 3))) := by
  unfold nextCell
  rcases cellAt g row col with _ | _ <;>
    rcases specNeighborCount g row col with _ | _ | _ | _ | n <;> rfl

/-- C1: for every well-formed grid, one `update` succeeds and the new field
holds, at each `(row, col)`, exactly the B3/S23 value computed from the
pre-step field with toroidal neighbor counting (`specNeighborCount`, the
claim's "(row + dr) mod height / (col + dc) mod width" over the 8 offsets).
The bounds `< 2 ^ 63` reflect that a Rust `Vec` never has more than
`isize::MAX` elements. -/
theorem C1_update_implements_life_rule (g : GameOfLife) (hwf : g.wf)
    (hh : 0 < g.height) (hw : 0 < g.width)
    (hh2 : g.height < 2 ^ 63) (hw2 : g.width < 2 ^ 63) :
    ∃ g2, g.update = some g2 ∧ g2.width = g.width ∧ g2.height = g.height ∧ g2.wf ∧
      ∀ row col, row < g.height → col < g.width →
        (cellAt g2 row col = true ↔
          ((cellAt g row col = true ∧
              (specNeighborCount g row col = 2 ∨ specNeighborCount g row col = 3)) ∨
           (cellAt g row col = false ∧ specNeighborCount g row col = 3))) := by
  refine ⟨stepped g, update_eq hwf hh hh2 hw hw2, rfl, rfl, stepped_wf g, ?_⟩
  intro row col hrow hcol
  rw [cellAt_stepped hrow hcol, nextCell_eq]
  cases hcur : cellAt g row col <;> simp

/-- C1 witness: the hypotheses of `C1_update_implements_life_rule` hold for
the concrete grid `new 3 3` and the theorem applies to it. -/
theorem C1_witness : ∃ g2, (GameOfLife.new 3 3).update = some g2 ∧
    g2.width = (GameOfLife.new 3 3).width ∧ g2.height = (GameOfLife.new 3 3).height ∧
    g2.wf ∧
    ∀ row col, row < (GameOfLife.new 3 3).height → col < (GameOfLife.new 3 3).width →
      (cellAt g2 row col = true ↔
        ((cellAt (GameOfLife.new 3 3) row col = true ∧
            (specNeighborCount (GameOfLife.new 3 3) row col = 2 ∨
             specNeighborCount (GameOfLife.new 3 3) row col = 3)) ∨
         (cellAt (GameOfLife.new 3 3) row col = false ∧
            specNeighborCount (GameOfLife.new 3 3) row col = 3))) :=
  C1_update_implements_life_rule (GameOfLife.new 3 3) (by decide) (by decide) (by decide)
    (by decide) (by decide)

/-- C5: on a validly constructed grid the neighbor count and the step
cannot fail (`none` models every Rust panic: out-of-range indexing and
modulo by zero), and every toroidally wrapped index is in range. -/
theorem C5_step_and_count_total (g : GameOfLife) (hwf : g.wf)
    (hh : 0 < g.height) (hw : 0 < g.width)
    (hh2 : g.height < 2 ^ 63) (hw2 : g.width < 2 ^ 63) :
    (∀ row col, row < g.height → col < g.width → (g.count_neighbors row col).isSome) ∧
    (g.update).isSome ∧
    (∀ row dr, specWrap g.height row dr < g.height) ∧
    (∀ col dc, specWrap g.width col dc < g.width) := by
  refine ⟨?_, ?_, fun row dr => specWrap_lt hh row dr, fun col dc => specWrap_lt hw col dc⟩
  · intro row col hrow hcol
    rw [count_neighbors_eq hwf hh hh2 hw hw2 hrow hcol]
    rfl
  · rw [update_eq hwf hh hh2 hw hw2]
    rfl

/-! ### Corner wrap (C2) -/

theorem specWrap_last_one {n : Nat} (hn : 0 < n) : specWrap n (n - 1) 1 = 0 := by
  unfold specWrap
  have he : ((n - 1 : Nat) : Int) + 1 = (n : Int) := by omega
  rw [he, Int.emod_self]
  rfl

theorem specWrap_zero_zero (n : Nat) : specWrap n 0 0 = 0 := by
  unfold specWrap
  simp

theorem specNeighborCount_pos_of_mem {g : GameOfLife} {row col : Nat} (p : Int × Int)
    (hmem : p ∈ neighborOffsets.filter (fun q =>
      cellAt g (specWrap g.height row q.1) (specWrap g.width col q.2))) :
    1 ≤ specNeighborCount g row col := by
  unfold specNeighborCount
  exact List.length_pos.2 (List.ne_nil_of_mem hmem)

/-- C2: if cell `(0, 0)` is alive, then the neighbor counts computed for the
three far corners `(height - 1, 0)`, `(0, width - 1)` and
`(height - 1, width - 1)` each examine the wrapped position `(0, 0)` (the
corresponding offset lands in the filtered live-neighbor list) and are
therefore at least 1. -/
theorem C2_corner_counts_include_origin (g : GameOfLife) (hwf : g.wf)
    (hh : 0 < g.height) (hw : 0 < g.width)
    (hh2 : g.height < 2 ^ 63) (hw2 : g.width < 2 ^ 63)
    (halive : cellAt g 0 0 = true) :
    (∃ n, g.count_neighbors (g.height - 1) 0 = some n ∧
      ((1 : Int), (0 : Int)) ∈ neighborOffsets.filter (fun q =>
        cellAt g (specWrap g.height (g.height - 1) q.1) (specWrap g.width 0 q.2)) ∧
      1 ≤ n) ∧
    (∃ n, g.count_neighbors 0 (g.width - 1) = some n ∧
      ((0 : Int), (1 : Int)) ∈ neighborOffsets.filter (fun q =>
        cellAt g (specWrap g.height 0 q.1) (specWrap g.width (g.width - 1) q.2)) ∧
      1 ≤ n) ∧
    (∃ n, g.count_neighbors (g.height - 1) (g.width - 1) = some n ∧
      ((1 : Int), (1 : Int)) ∈ neighborOffsets.filter (fun q =>
        cellAt g (specWrap g.height (g.height - 1) q.1) (specWrap g.width (g.width - 1) q.2)) ∧
      1 ≤ n) := by
  have hhl : g.height - 1 < g.height := by omega
  have hwl : g.width - 1 < g.width := by omega
  refine ⟨⟨specNeighborCount g (g.height - 1) 0,
      count_neighbors_eq hwf hh hh2 hw hw2 hhl hw, ?_, ?_⟩,
    ⟨specNeighborCount g 0 (g.width - 1),
      count_neighbors_eq hwf hh hh2 hw hw2 hh hwl, ?_, ?_⟩,
    ⟨specNeighborCount g (g.height - 1) (g.width - 1),
      count_neighbors_eq hwf hh hh2 hw hw2 hhl hwl, ?_, ?_⟩⟩
  · refine List.mem_filter.2 ⟨by decide, ?_⟩
    simpa [specWrap_last_one hh, specWrap_zero_zero] using halive
  · exact specNeighborCount_pos_of_mem ((1 : Int), (0 : Int)) (List.mem_filter.2 ⟨by decide, by
      simpa [specWrap_last_one hh, specWrap_zero_zero] using halive⟩)
  · refine List.mem_filter.2 ⟨by decide, ?_⟩
    simpa [specWrap_last_one hw, specWrap_zero_zero] using halive
  · exact specNeighborCount_pos_of_mem ((0 : Int), (1 : Int)) (List.mem_filter.2 ⟨by decide, by
      simpa [specWrap_last_one hw, specWrap_zero_zero] using halive⟩)
  · refine List.mem_filter.2 ⟨by decide, ?_⟩
    simpa [specWrap_last_one hh, specWrap_last_one hw] using halive
  · exact specNeighborCount_pos_of_mem ((1 : Int), (1 : Int)) (List.mem_filter.2 ⟨by decide, by
      simpa [specWrap_last_one hh, specWrap_last_one hw] using halive⟩)

/-- C2 witness: the theorem applies to the concrete 2×2 grid whose only
live cell is `(0, 0)`; its corner `(1, 0)` sees a positive neighbor count. -/
theorem C2_witness :
    ∃ n, (({ width := 2, height := 2, cells := [[true, false], [false, false]] } :
      GameOfLife).count_neighbors 1 0) = some n ∧ 1 ≤ n := by
  obtain ⟨⟨n, hn, _, hpos⟩, _, _⟩ := C2_corner_counts_include_origin
    { width := 2, height := 2, cells := [[true, false], [false, false]] }
    (by decide) (by decide) (by decide) (by decide) (by decide) (by decide)
  exact ⟨n, hn, hpos⟩

/-! ### All-dead grids (C7) -/

theorem cellAt_of_allDead {g : GameOfLife} (hdead : g.allDead) (r c : Nat) :
    cellAt g r c = false := by
  unfold cellAt
  rcases hrow : g.cells[r]? with _ | rowL
  · simp [List.getD_eq_getElem?_getD, hrow]
  · have hmem : rowL ∈ g.cells := List.getElem?_mem hrow
    rcases hcol : rowL[c]? with _ | b
    · simp [List.getD_eq_getElem?_getD, hrow, hcol]
    · have hb : b ∈ rowL := List.getElem?_mem hcol
      simp [List.getD_eq_getElem?_getD, hrow, hcol, hdead rowL hmem b hb]

theorem specNeighborCount_of_allDead {g : GameOfLife} (hdead : g.allDead)
    (row col : Nat) : specNeighborCount g row col = 0 := by
  unfold specNeighborCount
  rw [List.length_eq_zero]
  exact List.filter_eq_nil_iff.2 (fun p _ => by simp [cellAt_of_allDead hdead])

theorem update_of_allDead {g : GameOfLife} (hwf : g.wf) (hh2 : g.height < 2 ^ 63)
    (hw2 : g.width < 2 ^ 63) (hdead : g.allDead) :
    ∃ g2, g.update = some g2 ∧ g2.width = g.width ∧ g2.height = g.height ∧
      g2.wf ∧ g2.allDead := by
  rcases Nat.eq_zero_or_pos g.height with hh0 | hh
  · have hupd : g.update = some { g with cells := [] } := by
      unfold GameOfLife.update
      rw [hh0]
      rfl
    refine ⟨_, hupd, rfl, rfl, ⟨by simp [hh0], ?_⟩, ?_⟩
    · intro rowL hmem
      simp at hmem
    · intro rowL hmem
      simp at hmem
  rcases Nat.eq_zero_or_pos g.width with hw0 | hw
  · have hinner : ∀ row ∈ List.range g.height,
        (List.range g.width).mapM (fun col => g.compute_next_states row col)
          = some ((fun _ : Nat => ([] : List Bool)) row) := by
      intro row _
      rw [hw0]
      rfl
    have hupd : g.update = some { g with cells := (List.range g.height).map (fun _ => []) } := by
      unfold GameOfLife.update
      rw [mapM_eq_some_map _ _ _ hinner]
      rfl
    refine ⟨_, hupd, rfl, rfl, ⟨by simp, ?_⟩, ?_⟩
    · intro rowL hmem
      obtain ⟨row, _, rfl⟩ := List.mem_map.1 hmem
      simp [hw0]
    · intro rowL hmem
      obtain ⟨row, _, rfl⟩ := List.mem_map.1 hmem
      intro b hb
      simp at hb
  · refine ⟨stepped g, update_eq hwf hh hh2 hw hw2, rfl, rfl, stepped_wf g, ?_⟩
    intro rowL hmem b hb
    simp only [stepped] at hmem
    obtain ⟨row, _, rfl⟩ := List.mem_map.1 hmem
    obtain ⟨col, _, rfl⟩ := List.mem_map.1 hb
    rw [nextCell_eq]
    simp [cellAt_of_allDead hdead, specNeighborCount_of_allDead hdead]

/-- C7: an all-dead well-formed grid stays all-dead (and well-formed, with
unchanged dimensions) under any number of `update` steps, and no step
fails. -/
theorem C7_allDead_stays_allDead (g : GameOfLife) (hwf : g.wf)
    (hh2 : g.height < 2 ^ 63) (hw2 : g.width < 2 ^ 63) (hdead : g.allDead) (n : Nat) :
    ∃ g2, g.updateN n = some g2 ∧ g2.width = g.width ∧ g2.height = g.height ∧
      g2.wf ∧ g2.allDead := by
  induction n generalizing g with
  | zero => exact ⟨g, rfl, rfl, rfl, hwf, hdead⟩
  | succ n ih =>
    obtain ⟨g1, hu, hwidth1, hheight1, hwf1, hdead1⟩ := update_of_allDead hwf hh2 hw2 hdead
    obtain ⟨g2, hn2, hwidth2, hheight2, hwf2, hdead2⟩ :=
      ih g1 hwf1 (hheight1 ▸ hh2) (hwidth1 ▸ hw2) hdead1
    refine ⟨g2, ?_, hwidth2.trans hwidth1, hheight2.trans hheight1, hwf2, hdead2⟩
    rw [GameOfLife.updateN, hu, Option.some_bind]
    exact hn2

/-- C7 witness: the theorem applies to the concrete all-dead grid `new 3 3`
with 5 steps. -/
theorem C7_witness :
    ∃ g2, (GameOfLife.new 3 3).updateN 5 = some g2 ∧
      g2.width = (GameOfLife.new 3 3).width ∧ g2.height = (GameOfLife.new 3 3).height ∧
      g2.wf ∧ g2.allDead :=
  C7_allDead_stays_allDead (GameOfLife.new 3 3) (by decide) (by decide) (by decide)
    (by decide) 5

/-- C5 witness: the hypotheses hold for the concrete grid `new 3 3`. -/
theorem C5_witness :
    (∀ row col, row < (GameOfLife.new 3 3).height → col < (GameOfLife.new 3 3).width →
      ((GameOfLife.new 3 3).count_neighbors row col).isSome) ∧
    ((GameOfLife.new 3 3).update).isSome ∧
    (∀ row dr, specWrap (GameOfLife.new 3 3).height row dr < (GameOfLife.new 3 3).height) ∧
    (∀ col dc, specWrap (GameOfLife.new 3 3).width col dc < (GameOfLife.new 3 3).width) :=
  C5_step_and_count_total (GameOfLife.new 3 3) (by decide) (by decide) (by decide)
    (by decide) (by decide)

/-! ### The seed (C3, C10, C4) -/

theorem usizeCast_neg_large {v : Int} (hneg : v < 0) (hv : -2 ≤ v) :
    usizeCast v = (v + 2 ^ 64).toNat := by
  unfold usizeCast
  have h1 : (v + 2 ^ 64 * 1) % 2 ^ 64 = v % 2 ^ 64 := Int.add_mul_emod_self_left v (2 ^ 64) 1
  have h2 : (v + 2 ^ 64 * 1) % 2 ^ 64 = v + 2 ^ 64 * 1 :=
    Int.emod_eq_of_lt (by omega) (by omega)
  have h3 : v % 2 ^ 64 = v + 2 ^ 64 := by
    rw [← h1, h2]
    omega
  rw [h3]

theorem usizeCast_lt_iff {n m : Nat} {d : Int} (hn : n < 2 ^ 63) (hm : m < 2 ^ 63)
    (hd1 : -2 ≤ d) (hd2 : d ≤ 1) :
    usizeCast ((m : Int) + d) < n ↔ 0 ≤ (m : Int) + d ∧ (m : Int) + d < (n : Int) := by
  have hmZ : (m : Int) < 2 ^ 63 := by exact_mod_cast hm
  have hnZ : (n : Int) < 2 ^ 63 := by exact_mod_cast hn
  rcases Int.lt_or_le ((m : Int) + d) 0 with hneg | hpos
  · rw [usizeCast_neg_large hneg (by omega)]
    omega
  · rw [usizeCast_eq_toNat hpos (by omega)]
    omega

theorem setCell_eq {cells : List (List Bool)} {r c : Nat} (v : Bool)
    (hr : r < cells.length) (hc : c < (cells.getD r []).length) :
    setCell cells r c v = some (cells.set r ((cells.getD r []).set c v)) := by
  have hD : cells.getD r [] = cells[r] := by
    rw [List.getD_eq_getElem?_getD, List.getElem?_eq_getElem hr]
    rfl
  unfold setCell
  rw [List.get?_eq_getElem?, List.getElem?_eq_getElem hr]
  rw [hD] at hc ⊢
  simp [hc]

theorem getD2_set {cells : List (List Bool)} {r0 c0 : Nat}
    (hr0 : r0 < cells.length) (hc0 : c0 < (cells.getD r0 []).length)
    (v : Bool) (r c : Nat) :
    ((cells.set r0 ((cells.getD r0 []).set c0 v)).getD r []).getD c false
      = if r = r0 ∧ c = c0 then v else (cells.getD r []).getD c false := by
  have hD : cells.getD r0 [] = cells[r0] := by
    rw [List.getD_eq_getElem?_getD, List.getElem?_eq_getElem hr0]
    rfl
  rw [hD] at hc0 ⊢
  by_cases hr : r = r0
  · subst hr
    have e1 : (cells.set r (cells[r].set c0 v)).getD r [] = cells[r].set c0 v := by
      rw [List.getD_eq_getElem?_getD, List.getElem?_set_self hr0]
      rfl
    rw [e1]
    by_cases hc : c = c0
    · subst hc
      have e2 : (cells[r].set c v).getD c false = v := by
        rw [List.getD_eq_getElem?_getD, List.getElem?_set_self hc0]
        rfl
      rw [e2, if_pos ⟨rfl, rfl⟩]
    · have e2 : (cells[r].set c0 v).getD c false = cells[r].getD c false := by
        rw [List.getD_eq_getElem?_getD, List.getElem?_set_ne (fun h => hc h.symm),
          ← List.getD_eq_getElem?_getD]
      rw [e2, if_neg (fun h => hc h.2)]
      rw [show cells.getD r [] = cells[r] from by
        rw [List.getD_eq_getElem?_getD, List.getElem?_eq_getElem hr0]
        rfl]
  · have e1 : (cells.set r0 (cells[r0].set c0 v)).getD r [] = cells.getD r [] := by
      rw [List.getD_eq_getElem?_getD, List.getElem?_set_ne (fun h => hr h.symm),
        ← List.getD_eq_getElem?_getD]
    rw [e1, if_neg (fun h => hr h.1)]

theorem seedCellsOf_cons (g : GameOfLife) (p : Int × Int) (t : List (Int × Int)) :
    seedCellsOf g (p :: t) =
      if 0 ≤ ((g.height / 2 : Nat) : Int) + p.1 ∧
          ((g.height / 2 : Nat) : Int) + p.1 < (g.height : Int) ∧
          0 ≤ ((g.width / 2 : Nat) : Int) + p.2 ∧
          ((g.width / 2 : Nat) : Int) + p.2 < (g.width : Int) then
        ((((g.height / 2 : Nat) : Int) + p.1).toNat,
          (((g.width / 2 : Nat) : Int) + p.2).toNat) :: seedCellsOf g t
      else seedCellsOf g t := by
  unfold seedCellsOf
  rw [List.filterMap_cons]
  by_cases h : 0 ≤ ((g.height / 2 : Nat) : Int) + p.1 ∧
      ((g.height / 2 : Nat) : Int) + p.1 < (g.height : Int) ∧
      0 ≤ ((g.width / 2 : Nat) : Int) + p.2 ∧
      ((g.width / 2 : Nat) : Int) + p.2 < (g.width : Int)
  · simp only [if_pos h]
  · simp only [if_neg h]

theorem seed_fold {g : GameOfLife} (hh2 : g.height < 2 ^ 63) (hw2 : g.width < 2 ^ 63) :
    ∀ l : List (Int × Int), (∀ p ∈ l, (-1 ≤ p.1 ∧ p.1 ≤ 1) ∧ (-2 ≤ p.2 ∧ p.2 ≤ 1)) →
    ∀ cells : List (List Bool), cells.length = g.height →
      (∀ rowL ∈ cells, rowL.length = g.width) →
    ∃ cells2,
      (l.foldlM (fun cells p =>
        if usizeCast (((g.height / 2 : Nat) : Int) + p.1) < g.height ∧
            usizeCast (((g.width / 2 : Nat) : Int) + p.2) < g.width then
          setCell cells (usizeCast (((g.height / 2 : Nat) : Int) + p.1))
            (usizeCast (((g.width / 2 : Nat) : Int) + p.2)) true
        else pure cells) cells : Option (List (List Bool))) = some cells2 ∧
      cells2.length = g.height ∧ (∀ rowL ∈ cells2, rowL.length = g.width) ∧
      ∀ r c, (cells2.getD r []).getD c false
        = ((cells.getD r []).getD c false || decide ((r, c) ∈ seedCellsOf g l)) := by
  intro l
  induction l with
  | nil =>
    intro _ cells hlen hrows
    exact ⟨cells, rfl, hlen, hrows, by simp [seedCellsOf]⟩
  | cons p t ih =>
    intro hb cells hlen hrows
    obtain ⟨⟨hp1, hp2⟩, hp3, hp4⟩ := hb p (List.mem_cons_self p t)
    have hm : g.height / 2 < 2 ^ 63 := by omega
    have hm2 : g.width / 2 < 2 ^ 63 := by omega
    rw [List.foldlM_cons]
    by_cases hcond : 0 ≤ ((g.height / 2 : Nat) : Int) + p.1 ∧
        ((g.height / 2 : Nat) : Int) + p.1 < (g.height : Int) ∧
        0 ≤ ((g.width / 2 : Nat) : Int) + p.2 ∧
        ((g.width / 2 : Nat) : Int) + p.2 < (g.width : Int)
    · have ha1 := hcond.1
      have ha2 := hcond.2.1
      have ha3 := hcond.2.2.1
      have ha4 := hcond.2.2.2
      have hrowcast : usizeCast (((g.height / 2 : Nat) : Int) + p.1)
          = ((((g.height / 2 : Nat) : Int) + p.1)).toNat :=
        usizeCast_eq_toNat ha1 (by omega)
      have hcolcast : usizeCast (((g.width / 2 : Nat) : Int) + p.2)
          = ((((g.width / 2 : Nat) : Int) + p.2)).toNat :=
        usizeCast_eq_toNat ha3 (by omega)
      have hrowlt : ((((g.height / 2 : Nat) : Int) + p.1)).toNat < g.height := by omega
      have hcollt : ((((g.width / 2 : Nat) : Int) + p.2)).toNat < g.width := by omega
      have hr0 : ((((g.height / 2 : Nat) : Int) + p.1)).toNat < cells.length := by omega
      have hc0 : ((((g.width / 2 : Nat) : Int) + p.2)).toNat
          < (cells.getD ((((g.height / 2 : Nat) : Int) + p.1)).toNat []).length := by
        have hDmem : cells.getD ((((g.height / 2 : Nat) : Int) + p.1)).toNat [] ∈ cells := by
          rw [List.getD_eq_getElem?_getD, List.getElem?_eq_getElem hr0]
          exact List.getElem_mem hr0
        rw [hrows _ hDmem]
        exact hcollt
      have hstep : (if usizeCast (((g.height / 2 : Nat) : Int) + p.1) < g.height ∧
            usizeCast (((g.width / 2 : Nat) : Int) + p.2) < g.width then
          setCell cells (usizeCast (((g.height / 2 : Nat) : Int) + p.1))
            (usizeCast (((g.width / 2 : Nat) : Int) + p.2)) true
        else pure cells)
          = some (cells.set ((((g.height / 2 : Nat) : Int) + p.1)).toNat
              ((cells.getD ((((g.height / 2 : Nat) : Int) + p.1)).toNat []).set
                ((((g.width / 2 : Nat) : Int) + p.2)).toNat true)) := by
        rw [hrowcast, hcolcast, if_pos ⟨hrowlt, hcollt⟩]
        exact setCell_eq true hr0 hc0
      rw [hstep]
      simp only [Option.bind_eq_bind, Option.some_bind]
      have hlen2 : (cells.set ((((g.height / 2 : Nat) : Int) + p.1)).toNat
          ((cells.getD ((((g.height / 2 : Nat) : Int) + p.1)).toNat []).set
            ((((g.width / 2 : Nat) : Int) + p.2)).toNat true)).length = g.height := by
        rw [List.length_set]
        exact hlen
      have hrows2 : ∀ rowL ∈ cells.set ((((g.height / 2 : Nat) : Int) + p.1)).toNat
          ((cells.getD ((((g.height / 2 : Nat) : Int) + p.1)).toNat []).set
            ((((g.width / 2 : Nat) : Int) + p.2)).toNat true), rowL.length = g.width := by
        intro rowL hmem
        rcases List.mem_or_eq_of_mem_set hmem with h | rfl
        · exact hrows _ h
        · rw [List.length_set]
          apply hrows
          rw [List.getD_eq_getElem?_getD, List.getElem?_eq_getElem hr0]
          exact List.getElem_mem hr0
      obtain ⟨cells2, hfold, hl2, hr2, hpt⟩ :=
        ih (fun x hx => hb x (List.mem_cons_of_mem p hx)) _ hlen2 hrows2
      refine ⟨cells2, hfold, hl2, hr2, ?_⟩
      intro r c
      rw [hpt r c, getD2_set hr0 hc0 true r c, seedCellsOf_cons, if_pos hcond]
      by_cases hrc : r = ((((g.height / 2 : Nat) : Int) + p.1)).toNat ∧
          c = ((((g.width / 2 : Nat) : Int) + p.2)).toNat
      · simp [hrc, List.mem_cons]
      · simp only [if_neg hrc]
        have hne : ¬((r, c) = (((((g.height / 2 : Nat) : Int) + p.1)).toNat,
            ((((g.width / 2 : Nat) : Int) + p.2)).toNat)) := by
          simp only [Prod.mk.injEq]
          exact hrc
        congr 1
        exact decide_eq_decide.2 ((List.mem_cons.trans (or_iff_right hne)).symm)
    · have hfalse : ¬(usizeCast (((g.height / 2 : Nat) : Int) + p.1) < g.height ∧
          usizeCast (((g.width / 2 : Nat) : Int) + p.2) < g.width) := by
        rw [usizeCast_lt_iff hh2 hm (by omega) (by omega),
          usizeCast_lt_iff hw2 hm2 hp3 hp4]
        omega
      rw [if_neg hfalse]
      simp only [Option.pure_def, Option.bind_eq_bind, Option.some_bind]
      obtain ⟨cells2, hfold, hl2, hr2, hpt⟩ :=
        ih (fun x hx => hb x (List.mem_cons_of_mem p hx)) cells hlen hrows
      refine ⟨cells2, hfold, hl2, hr2, ?_⟩
      intro r c
      rw [hpt r c, seedCellsOf_cons, if_neg hcond]

theorem starting_position_eq (g : GameOfLife) (hwf : g.wf)
    (hh2 : g.height < 2 ^ 63) (hw2 : g.width < 2 ^ 63) :
    ∃ g2, g.starting_position = some g2 ∧ g2.width = g.width ∧ g2.height = g.height ∧
      g2.wf ∧ ∀ r c, cellAt g2 r c = (cellAt g r c || decide ((r, c) ∈ seedCells g)) := by
  obtain ⟨cells2, hfold, hlen2, hrows2, hpt⟩ :=
    seed_fold hh2 hw2 seedOffsets (by decide) g.cells hwf.1 hwf.2
  refine ⟨{ g with cells := cells2 }, ?_, rfl, rfl, ⟨hlen2, hrows2⟩, ?_⟩
  · unfold GameOfLife.starting_position
    simp only []
    rw [hfold]
    rfl
  · intro r c
    exact hpt r c

/-- C3: `starting_position` succeeds on every well-formed grid, keeps the
dimensions, keeps every previously live cell live, and sets live exactly the
cells of `seedCells` — the five offsets
`{(-1,-1), (-1,0), (0,-2), (0,-1), (1,-1)}` from the center
`(height / 2, width / 2)` whose result lies in `[0, height) × [0, width)`
(out-of-range offsets are skipped, with no wraparound); no other cell
changes. -/
theorem C3_starting_position_seeds (g : GameOfLife) (hwf : g.wf)
    (hh2 : g.height < 2 ^ 63) (hw2 : g.width < 2 ^ 63) :
    ∃ g2, g.starting_position = some g2 ∧ g2.width = g.width ∧ g2.height = g.height ∧
      g2.wf ∧
      (∀ r c, cellAt g r c = true → cellAt g2 r c = true) ∧
      (∀ r c, cellAt g2 r c = true ↔ (cellAt g r c = true ∨ (r, c) ∈ seedCells g)) := by
  obtain ⟨g2, hsp, hw, hh, hwf2, hpt⟩ := starting_position_eq g hwf hh2 hw2
  refine ⟨g2, hsp, hw, hh, hwf2, ?_, ?_⟩
  · intro r c halive
    rw [hpt r c, halive]
    rfl
  · intro r c
    rw [hpt r c]
    simp

/-- C3 witness: the theorem applies to the concrete grid `new 3 3`; on a
3×3 grid the offsets `(0, -2)` falls outside and is skipped. -/
theorem C3_witness :
    ∃ g2, (GameOfLife.new 3 3).starting_position = some g2 ∧
      g2.width = (GameOfLife.new 3 3).width ∧ g2.height = (GameOfLife.new 3 3).height ∧
      g2.wf ∧
      (∀ r c, cellAt (GameOfLife.new 3 3) r c = true → cellAt g2 r c = true) ∧
      (∀ r c, cellAt g2 r c = true ↔
        (cellAt (GameOfLife.new 3 3) r c = true ∨ (r, c) ∈ seedCells (GameOfLife.new 3 3))) :=
  C3_starting_position_seeds (GameOfLife.new 3 3) (by decide) (by decide) (by decide)

theorem grid_ext {a b : GameOfLife} (hw : a.width = b.width) (hh : a.height = b.height)
    (hc : a.cells = b.cells) : a = b := by
  cases a
  cases b
  simp_all

theorem cells_ext (w : Nat) {A B : List (List Bool)} (hlen : A.length = B.length)
    (hA : ∀ rowL ∈ A, rowL.length = w) (hB : ∀ rowL ∈ B, rowL.length = w)
    (hpt : ∀ r c, (A.getD r []).getD c false = (B.getD r []).getD c false) : A = B := by
  apply List.ext_get?
  intro r
  rcases Nat.lt_or_ge r A.length with hr | hr
  · have hrB : r < B.length := by omega
    rw [List.get?_eq_getElem?, List.get?_eq_getElem?,
      List.getElem?_eq_getElem hr, List.getElem?_eq_getElem hrB]
    have hDA : A.getD r [] = A[r] := by
      rw [List.getD_eq_getElem?_getD, List.getElem?_eq_getElem hr]
      rfl
    have hDB : B.getD r [] = B[r] := by
      rw [List.getD_eq_getElem?_getD, List.getElem?_eq_getElem hrB]
      rfl
    have hlA : A[r].length = w := hA _ (List.getElem_mem hr)
    have hlB : B[r].length = w := hB _ (List.getElem_mem hrB)
    congr 1
    apply List.ext_get?
    intro c
    rcases Nat.lt_or_ge c w with hc | hc
    · have hcA : c < A[r].length := by omega
      have hcB : c < B[r].length := by omega
      rw [List.get?_eq_getElem?, List.get?_eq_getElem?,
        List.getElem?_eq_getElem hcA, List.getElem?_eq_getElem hcB]
      have hp := hpt r c
      rw [hDA, hDB] at hp
      have e1 : (A[r]).getD c false = A[r][c] := by
        rw [List.getD_eq_getElem?_getD, List.getElem?_eq_getElem hcA]
        rfl
      have e2 : (B[r]).getD c false = B[r][c] := by
        rw [List.getD_eq_getElem?_getD, List.getElem?_eq_getElem hcB]
        rfl
      rw [e1, e2] at hp
      rw [hp]
    · rw [List.get?_eq_getElem?, List.get?_eq_getElem?,
        List.getElem?_eq_none (by omega), List.getElem?_eq_none (by omega)]
  · rw [List.get?_eq_getElem?, List.get?_eq_getElem?,
      List.getElem?_eq_none (by omega), List.getElem?_eq_none (by omega)]

theorem seedCells_congr {a b : GameOfLife} (hw : a.width = b.width)
    (hh : a.height = b.height) : seedCells a = seedCells b := by
  unfold seedCells seedCellsOf
  rw [hw, hh]

/-- C10: `starting_position` is idempotent — applying it a second time
returns exactly the grid produced by the first application (it only sets
already-set cells to `true` again). -/
theorem C10_starting_position_idempotent (g : GameOfLife) (hwf : g.wf)
    (hh2 : g.height < 2 ^ 63) (hw2 : g.width < 2 ^ 63) :
    ∃ g1, g.starting_position = some g1 ∧ g1.starting_position = some g1 := by
  obtain ⟨g1, hsp1, hww1, hhh1, hwf1, hpt1⟩ := starting_position_eq g hwf hh2 hw2
  obtain ⟨g2, hsp2, hww2, hhh2, hwf2, hpt2⟩ :=
    starting_position_eq g1 hwf1 (by rw [hhh1]; exact hh2) (by rw [hww1]; exact hw2)
  refine ⟨g1, hsp1, ?_⟩
  rw [hsp2]
  congr 1
  apply grid_ext hww2 hhh2
  have hrows2 : ∀ rowL ∈ g2.cells, rowL.length = g1.width := by
    intro rowL hm
    rw [hwf2.2 rowL hm, hww2]
  have hlen : g2.cells.length = g1.cells.length := by
    rw [hwf2.1, hwf1.1, hhh2]
  apply cells_ext g1.width hlen hrows2 hwf1.2
  intro r c
  have h2 := hpt2 r c
  rw [(seedCells_congr hww1 hhh1 : seedCells g1 = seedCells g)] at h2
  show cellAt g2 r c = cellAt g1 r c
  rw [h2, hpt1 r c]
  cases cellAt g r c <;> cases decide ((r, c) ∈ seedCells g) <;> rfl

/-- C10 witness: the theorem applies to the concrete grid `new 3 3`. -/
theorem C10_witness :
    ∃ g1, (GameOfLife.new 3 3).starting_position = some g1 ∧
      g1.starting_position = some g1 :=
  C10_starting_position_idempotent (GameOfLife.new 3 3) (by decide) (by decide) (by decide)

/-! ### Construction and shape preservation (C4) -/

theorem new_wf (w h : Nat) : (GameOfLife.new w h).wf := by
  constructor
  · simp [GameOfLife.new]
  · intro rowL hmem
    simp only [GameOfLife.new, List.mem_replicate] at hmem
    rw [hmem.2]
    simp [GameOfLife.new]

theorem cellAt_new (w h r c : Nat) : cellAt (GameOfLife.new w h) r c = false := by
  unfold cellAt GameOfLife.new
  simp only [List.getD_eq_getElem?_getD, List.getElem?_replicate]
  rcases Nat.lt_or_ge r h with hr | hr
  · rw [if_pos hr]
    simp only [Option.getD_some, List.getElem?_replicate]
    rcases Nat.lt_or_ge c w with hc | hc
    · rw [if_pos hc]
      rfl
    · rw [if_neg (by omega)]
      rfl
  · rw [if_neg (by omega)]
    rfl

/-- C4: `new w h` yields an all-dead grid with exactly `h` rows of `w`
cells, and both `update` and `starting_position` keep the shape invariant
and the `width`/`height` fields. (`draw` takes the grid immutably and
returns only the byte buffer, so it cannot modify the grid at all in this
embedding.) -/
theorem C4_shape_invariant (w h : Nat) (hw : 0 < w) (hh : 0 < h)
    (hw2 : w < 2 ^ 63) (hh2 : h < 2 ^ 63) :
    ((GameOfLife.new w h).width = w ∧ (GameOfLife.new w h).height = h ∧
      (GameOfLife.new w h).wf ∧
      (∀ r c, cellAt (GameOfLife.new w h) r c = false)) ∧
    (∀ g : GameOfLife, g.wf → g.width = w → g.height = h →
      (∃ g2, g.update = some g2 ∧ g2.width = w ∧ g2.height = h ∧ g2.wf) ∧
      (∃ g2, g.starting_position = some g2 ∧ g2.width = w ∧ g2.height = h ∧ g2.wf)) := by
  constructor
  · exact ⟨rfl, rfl, new_wf w h, cellAt_new w h⟩
  · intro g hwf hgw hgh
    constructor
    · obtain ⟨g2, hu, hw3, hh3, hwf3, _⟩ :=
        C1_update_implements_life_rule g hwf (by omega) (by omega) (by omega) (by omega)
      exact ⟨g2, hu, by rw [hw3, hgw], by rw [hh3, hgh], hwf3⟩
    · obtain ⟨g2, hsp, hw3, hh3, hwf3, _⟩ :=
        starting_position_eq g hwf (by omega) (by omega)
      exact ⟨g2, hsp, by rw [hw3, hgw], by rw [hh3, hgh], hwf3⟩

/-- C4 witness: the theorem applies at `w = h = 3` and to the concrete grid
`new 3 3`. -/
theorem C4_witness :
    (GameOfLife.new 3 3).wf ∧
    (∃ g2, (GameOfLife.new 3 3).update = some g2 ∧ g2.width = 3 ∧ g2.height = 3 ∧ g2.wf) ∧
    (∃ g2, (GameOfLife.new 3 3).starting_position = some g2 ∧
      g2.width = 3 ∧ g2.height = 3 ∧ g2.wf) := by
  obtain ⟨⟨_, _, hwf, _⟩, hops⟩ :=
    C4_shape_invariant 3 3 (by decide) (by decide) (by decide) (by decide)
  obtain ⟨hu, hs⟩ := hops (GameOfLife.new 3 3) hwf rfl rfl
  exact ⟨hwf, hu, hs⟩

/-! ### The pixel export (C6) -/

theorem writeByte_eq {s : List Nat} {i : Nat} (hi : i < s.length) (v : Nat) :
    writeByte s i v = some (s.set i v) := by
  unfold writeByte
  rw [if_pos hi]

theorem getD_set_nat {s : List Nat} {i : Nat} (hi : i < s.length) (v j : Nat) :
    (s.set i v).getD j 0 = if j = i then v else s.getD j 0 := by
  by_cases h : j = i
  · subst h
    rw [List.getD_eq_getElem?_getD, List.getElem?_set_self hi, if_pos rfl]
    rfl
  · rw [List.getD_eq_getElem?_getD, List.getElem?_set_ne (fun e => h e.symm),
      ← List.getD_eq_getElem?_getD, if_neg h]

theorem draw_cell_step {g : GameOfLife} (hwf : g.wf) {row col : Nat}
    (hrow : row < g.height) (hcol : col < g.width) {s : List Nat}
    (hlen : g.width * g.height * 4 ≤ s.length) :
    (do
      let b ← getCell g.cells row col
      let s1 ← writeByte s ((row * g.width + col) * 4)
        ((if b then [0x00, 0x00, 0x00] else [0xFF, 0xFF, 0xFF]).getD 0 0)
      let s2 ← writeByte s1 ((row * g.width + col) * 4 + 1)
        ((if b then [0x00, 0x00, 0x00] else [0xFF, 0xFF, 0xFF]).getD 1 0)
      let s3 ← writeByte s2 ((row * g.width + col) * 4 + 2)
        ((if b then [0x00, 0x00, 0x00] else [0xFF, 0xFF, 0xFF]).getD 2 0)
      writeByte s3 ((row * g.width + col) * 4 + 3) 0xFF : Option (List Nat))
    = some ((((s.set ((row * g.width + col) * 4)
        (if cellAt g row col then 0x00 else 0xFF)).set
        ((row * g.width + col) * 4 + 1) (if cellAt g row col then 0x00 else 0xFF)).set
        ((row * g.width + col) * 4 + 2) (if cellAt g row col then 0x00 else 0xFF)).set
        ((row * g.width + col) * 4 + 3) 0xFF) := by
  have hmul2 : row * g.width + g.width ≤ g.height * g.width := by
    have h4 : (row + 1) * g.width ≤ g.height * g.width :=
      Nat.mul_le_mul_right g.width (by omega)
    rw [Nat.succ_mul] at h4
    exact h4
  have hcomm : g.height * g.width = g.width * g.height := Nat.mul_comm _ _
  have hidx : (row * g.width + col) * 4 + 3 < s.length := by omega
  have h0 : (row * g.width + col) * 4 < s.length := by omega
  have h1 : (row * g.width + col) * 4 + 1 < s.length := by omega
  have h2 : (row * g.width + col) * 4 + 2 < s.length := by omega
  rw [getCell_eq hwf hrow hcol]
  cases hcell : cellAt g row col <;>
    simp [Option.bind_eq_bind, writeByte, List.length_set, h0, h1, h2, hidx]

theorem draw_inner {g : GameOfLife} (hwf : g.wf) {row : Nat} (hrow : row < g.height) :
    ∀ n, n ≤ g.width → ∀ s : List Nat, g.width * g.height * 4 ≤ s.length →
    ∃ s2, ((List.range n).foldlM (fun s col => do
        let b ← getCell g.cells row col
        let s1 ← writeByte s ((row * g.width + col) * 4)
          ((if b then [0x00, 0x00, 0x00] else [0xFF, 0xFF, 0xFF]).getD 0 0)
        let s2 ← writeByte s1 ((row * g.width + col) * 4 + 1)
          ((if b then [0x00, 0x00, 0x00] else [0xFF, 0xFF, 0xFF]).getD 1 0)
        let s3 ← writeByte s2 ((row * g.width + col) * 4 + 2)
          ((if b then [0x00, 0x00, 0x00] else [0xFF, 0xFF, 0xFF]).getD 2 0)
        writeByte s3 ((row * g.width + col) * 4 + 3) 0xFF) s : Option (List Nat))
      = some s2 ∧
      s2.length = s.length ∧
      (∀ col, col < n →
        (s2.getD ((row * g.width + col) * 4) 0 = (if cellAt g row col then 0x00 else 0xFF) ∧
         s2.getD ((row * g.width + col) * 4 + 1) 0 = (if cellAt g row col then 0x00 else 0xFF) ∧
         s2.getD ((row * g.width + col) * 4 + 2) 0 = (if cellAt g row col then 0x00 else 0xFF) ∧
         s2.getD ((row * g.width + col) * 4 + 3) 0 = 0xFF)) ∧
      (∀ i, (i < row * g.width * 4 ∨ (row * g.width + n) * 4 ≤ i) →
        s2.getD i 0 = s.getD i 0) := by
  intro n
  induction n with
  | zero =>
    intro _ s hlen
    exact ⟨s, rfl, rfl, fun col hcol => absurd hcol (Nat.not_lt_zero col), fun i _ => rfl⟩
  | succ n ih =>
    intro hn s hlen
    obtain ⟨s1, hfold, hlen1, hbytes, hout⟩ := ih (by omega) s hlen
    have hlen1b : g.width * g.height * 4 ≤ s1.length := by omega
    have hcoln : n < g.width := by omega
    rw [List.range_succ, List.foldlM_append, hfold]
    simp only [Option.bind_eq_bind, Option.some_bind, List.foldlM_cons, List.foldlM_nil]
    have hstep := draw_cell_step hwf hrow hcoln hlen1b
    simp only [Option.bind_eq_bind] at hstep
    rw [hstep]
    simp only [Option.some_bind, Option.pure_def]
    have hmul2 : row * g.width + g.width ≤ g.height * g.width := by
      have h4 : (row + 1) * g.width ≤ g.height * g.width :=
        Nat.mul_le_mul_right g.width (by omega)
      rw [Nat.succ_mul] at h4
      exact h4
    have hcomm : g.height * g.width = g.width * g.height := Nat.mul_comm _ _
    have hidx3 : (row * g.width + n) * 4 + 3 < s1.length := by omega
    have hidx0 : (row * g.width + n) * 4 < s1.length := by omega
    have hidx1 : (row * g.width + n) * 4 + 1 < s1.length := by omega
    have hidx2 : (row * g.width + n) * 4 + 2 < s1.length := by omega
    have hL0 : (s1.set ((row * g.width + n) * 4)
        (if cellAt g row n then 0x00 else 0xFF)).length = s1.length := List.length_set ..
    have hL1 : ((s1.set ((row * g.width + n) * 4)
        (if cellAt g row n then 0x00 else 0xFF)).set ((row * g.width + n) * 4 + 1)
        (if cellAt g row n then 0x00 else 0xFF)).length = s1.length := by
      rw [List.length_set, List.length_set]
    have hL2 : (((s1.set ((row * g.width + n) * 4)
        (if cellAt g row n then 0x00 else 0xFF)).set ((row * g.width + n) * 4 + 1)
        (if cellAt g row n then 0x00 else 0xFF)).set ((row * g.width + n) * 4 + 2)
        (if cellAt g row n then 0x00 else 0xFF)).length = s1.length := by
      rw [List.length_set, List.length_set, List.length_set]
    refine ⟨_, rfl, ?_, ?_, ?_⟩
    · rw [List.length_set, hL2, hlen1]
    · intro col hcol
      rcases Nat.lt_or_ge col n with hcl | hcl
      · -- an earlier column: all four writes of column n miss its block
        obtain ⟨b0, b1, b2, b3⟩ := hbytes col hcl
        refine ⟨?_, ?_, ?_, ?_⟩
        · rw [getD_set_nat (by rw [hL2]; exact hidx3) _ _,
            if_neg (by omega),
            getD_set_nat (by rw [hL1]; exact hidx2) _ _, if_neg (by omega),
            getD_set_nat (by rw [hL0]; exact hidx1) _ _, if_neg (by omega),
            getD_set_nat hidx0 _ _, if_neg (by omega)]
          exact b0
        · rw [getD_set_nat (by rw [hL2]; exact hidx3) _ _,
            if_neg (by omega),
            getD_set_nat (by rw [hL1]; exact hidx2) _ _, if_neg (by omega),
            getD_set_nat (by rw [hL0]; exact hidx1) _ _, if_neg (by omega),
            getD_set_nat hidx0 _ _, if_neg (by omega)]
          exact b1
        · rw [getD_set_nat (by rw [hL2]; exact hidx3) _ _,
            if_neg (by omega),
            getD_set_nat (by rw [hL1]; exact hidx2) _ _, if_neg (by omega),
            getD_set_nat (by rw [hL0]; exact hidx1) _ _, if_neg (by omega),
            getD_set_nat hidx0 _ _, if_neg (by omega)]
          exact b2
        · rw [getD_set_nat (by rw [hL2]; exact hidx3) _ _,
            if_neg (by omega),
            getD_set_nat (by rw [hL1]; exact hidx2) _ _, if_neg (by omega),
            getD_set_nat (by rw [hL0]; exact hidx1) _ _, if_neg (by omega),
            getD_set_nat hidx0 _ _, if_neg (by omega)]
          exact b3
      · -- the current column n
        have hceq : col = n := by omega
        subst hceq
        refine ⟨?_, ?_, ?_, ?_⟩
        · rw [getD_set_nat (by rw [hL2]; exact hidx3) _ _, if_neg (by omega),
            getD_set_nat (by rw [hL1]; exact hidx2) _ _, if_neg (by omega),
            getD_set_nat (by rw [hL0]; exact hidx1) _ _, if_neg (by omega),
            getD_set_nat hidx0 _ _, if_pos rfl]
        · rw [getD_set_nat (by rw [hL2]; exact hidx3) _ _, if_neg (by omega),
            getD_set_nat (by rw [hL1]; exact hidx2) _ _, if_neg (by omega),
            getD_set_nat (by rw [hL0]; exact hidx1) _ _, if_pos rfl]
        · rw [getD_set_nat (by rw [hL2]; exact hidx3) _ _, if_neg (by omega),
            getD_set_nat (by rw [hL1]; exact hidx2) _ _, if_pos rfl]
        · rw [getD_set_nat (by rw [hL2]; exact hidx3) _ _, if_pos rfl]
    · intro i hi
      have hi2 : i < row * g.width * 4 ∨ (row * g.width + n) * 4 ≤ i := by omega
      rw [getD_set_nat (by rw [hL2]; exact hidx3) _ _, if_neg (by omega),
        getD_set_nat (by rw [hL1]; exact hidx2) _ _, if_neg (by omega),
        getD_set_nat (by rw [hL0]; exact hidx1) _ _, if_neg (by omega),
        getD_set_nat hidx0 _ _, if_neg (by omega)]
      exact hout i hi2

theorem draw_outer {g : GameOfLife} (hwf : g.wf) :
    ∀ m, m ≤ g.height → ∀ s : List Nat, g.width * g.height * 4 ≤ s.length →
    ∃ s2, ((List.range m).foldlM (fun s row =>
        (List.range g.width).foldlM (fun s col => do
          let b ← getCell g.cells row col
          let s1 ← writeByte s ((row * g.width + col) * 4)
            ((if b then [0x00, 0x00, 0x00] else [0xFF, 0xFF, 0xFF]).getD 0 0)
          let s2 ← writeByte s1 ((row * g.width + col) * 4 + 1)
            ((if b then [0x00, 0x00, 0x00] else [0xFF, 0xFF, 0xFF]).getD 1 0)
          let s3 ← writeByte s2 ((row * g.width + col) * 4 + 2)
            ((if b then [0x00, 0x00, 0x00] else [0xFF, 0xFF, 0xFF]).getD 2 0)
          writeByte s3 ((row * g.width + col) * 4 + 3) 0xFF) s) s : Option (List Nat))
      = some s2 ∧
      s2.length = s.length ∧
      (∀ row col, row < m → col < g.width →
        (s2.getD ((row * g.width + col) * 4) 0 = (if cellAt g row col then 0x00 else 0xFF) ∧
         s2.getD ((row * g.width + col) * 4 + 1) 0 = (if cellAt g row col then 0x00 else 0xFF) ∧
         s2.getD ((row * g.width + col) * 4 + 2) 0 = (if cellAt g row col then 0x00 else 0xFF) ∧
         s2.getD ((row * g.width + col) * 4 + 3) 0 = 0xFF)) ∧
      (∀ i, m * g.width * 4 ≤ i → s2.getD i 0 = s.getD i 0) := by
  intro m
  induction m with
  | zero =>
    intro _ s hlen
    exact ⟨s, rfl, rfl, fun row col hr => absurd hr (Nat.not_lt_zero row), fun i _ => rfl⟩
  | succ m ih =>
    intro hm s hlen
    obtain ⟨s1, hfold, hlen1, hbytes, hout⟩ := ih (by omega) s hlen
    have hlen1b : g.width * g.height * 4 ≤ s1.length := by omega
    have hrowm : m < g.height := by omega
    rw [List.range_succ, List.foldlM_append, hfold]
    simp only [Option.bind_eq_bind, Option.some_bind, List.foldlM_cons, List.foldlM_nil]
    obtain ⟨s2, hinner, hlen2, hbytes2, hout2⟩ :=
      draw_inner hwf hrowm g.width (le_refl _) s1 hlen1b
    simp only [Option.bind_eq_bind] at hinner
    rw [hinner]
    simp only [Option.some_bind, Option.pure_def]
    refine ⟨s2, rfl, by omega, ?_, ?_⟩
    · intro row col hr hc
      rcases Nat.lt_or_ge row m with hrm | hrm
      · have hmul3 : (row + 1) * g.width ≤ m * g.width :=
          Nat.mul_le_mul_right g.width (by omega)
        rw [Nat.succ_mul] at hmul3
        obtain ⟨b0, b1, b2, b3⟩ := hbytes row col hrm hc
        refine ⟨?_, ?_, ?_, ?_⟩ <;> rw [hout2 _ (by omega)]
        exacts [b0, b1, b2, b3]
      · have hreq : row = m := by omega
        subst hreq
        exact hbytes2 col hc
    · intro i hi
      have hsm : (m + 1) * g.width = m * g.width + g.width := Nat.succ_mul _ _
      rw [hout2 i (Or.inr (by omega))]
      exact hout i (by omega)

/-- C6: on a well-formed grid and a buffer of length at least
`width * height * 4`, `draw` succeeds and writes, for each cell
`(row, col)`, the four bytes `0x00 0x00 0x00 0xFF` (opaque black) at offset
`(row * width + col) * 4` when the cell is alive, and
`0xFF 0xFF 0xFF 0xFF` (opaque white) when it is dead; bytes at offsets
`≥ width * height * 4` are unchanged. (The grid itself is taken immutably,
so it is unchanged by construction.) -/
theorem C6_draw_writes_rgba (g : GameOfLife) (hwf : g.wf) (screen : List Nat)
    (hlen : g.width * g.height * 4 ≤ screen.length) :
    ∃ out, g.draw screen = some out ∧ out.length = screen.length ∧
      (∀ row col, row < g.height → col < g.width →
        (out.getD ((row * g.width + col) * 4) 0,
         out.getD ((row * g.width + col) * 4 + 1) 0,
         out.getD ((row * g.width + col) * 4 + 2) 0,
         out.getD ((row * g.width + col) * 4 + 3) 0)
          = if cellAt g row col then (0x00, 0x00, 0x00, 0xFF)
            else (0xFF, 0xFF, 0xFF, 0xFF)) ∧
      (∀ i, g.width * g.height * 4 ≤ i → out.getD i 0 = screen.getD i 0) := by
  obtain ⟨out, hfold, hlen2, hbytes, hout⟩ := draw_outer hwf g.height (le_refl _) screen hlen
  have hcomm : g.height * g.width = g.width * g.height := Nat.mul_comm _ _
  refine ⟨out, ?_, hlen2, ?_, ?_⟩
  · unfold GameOfLife.draw
    simp only []
    exact hfold
  · intro row col hr hc
    obtain ⟨b0, b1, b2, b3⟩ := hbytes row col hr hc
    rw [b0, b1, b2, b3]
    cases cellAt g row col <;> rfl
  · intro i hi
    exact hout i (by omega)

/-- C6 witness: the theorem applies to the concrete grid `new 2 2` and a
16-byte buffer filled with the byte 7. -/
theorem C6_witness :
    ∃ out, (GameOfLife.new 2 2).draw (List.replicate 16 7) = some out ∧
      out.length = (List.replicate 16 7 : List Nat).length ∧
      (∀ row col, row < (GameOfLife.new 2 2).height → col < (GameOfLife.new 2 2).width →
        (out.getD ((row * (GameOfLife.new 2 2).width + col) * 4) 0,
         out.getD ((row * (GameOfLife.new 2 2).width + col) * 4 + 1) 0,
         out.getD ((row * (GameOfLife.new 2 2).width + col) * 4 + 2) 0,
         out.getD ((row * (GameOfLife.new 2 2).width + col) * 4 + 3) 0)
          = if cellAt (GameOfLife.new 2 2) row col then (0x00, 0x00, 0x00, 0xFF)
            else (0xFF, 0xFF, 0xFF, 0xFF)) ∧
      (∀ i, (GameOfLife.new 2 2).width * (GameOfLife.new 2 2).height * 4 ≤ i →
        out.getD i 0 = (List.replicate 16 7 : List Nat).getD i 0) :=
  C6_draw_writes_rgba (GameOfLife.new 2 2) (by decide) (List.replicate 16 7) (by decide)

/-! ### The seed is an R-pentomino, not a glider (C8) -/

/-- C8 counterexample: on the 20×20 grid, the program's seed is
`{(9,9), (9,10), (10,8), (10,9), (11,9)}` — the R-pentomino — and after 4
updates the live set has 8 cells
`{(8,8), (8,10), (9,7), (9,10), (10,7), (10,10), (11,8), (11,9)}`, which
is not the seed translated by one cell along any of the four diagonals
(it does not even have 5 cells). -/
theorem C8_counterexample :
    ((GameOfLife.new 20 20).starting_position.map liveList
        = some [(9, 9), (9, 10), (10, 8), (10, 9), (11, 9)]) ∧
    (((GameOfLife.new 20 20).starting_position.bind (fun g0 => g0.updateN 4)).map liveList
        = some [(8, 8), (8, 10), (9, 7), (9, 10), (10, 7), (10, 10), (11, 8), (11, 9)]) ∧
    (∀ dr dc : Int, (dr = -1 ∨ dr = 1) → (dc = -1 ∨ dc = 1) →
      intPairs [(8, 8), (8, 10), (9, 7), (9, 10), (10, 7), (10, 10), (11, 8), (11, 9)]
        ≠ translateBy (dr, dc) [(9, 9), (9, 10), (10, 8), (10, 9), (11, 9)]) := by
  refine ⟨by decide, by decide, ?_⟩
  intro dr dc hdr hdc
  rcases hdr with rfl | rfl <;> rcases hdc with rfl | rfl <;> decide

/-- C8 amended: the `starting_position` pattern is the R-pentomino, not a
glider; on a 20×20 grid, 4 updates turn its 5 live cells into the 8-cell
set `{(8,8), (8,10), (9,7), (9,10), (10,7), (10,10), (11,8), (11,9)}`,
which is not a diagonal translate of the seed. -/
theorem C8_amended_four_steps_of_seed :
    ((GameOfLife.new 20 20).starting_position.map liveList
        = some [(9, 9), (9, 10), (10, 8), (10, 9), (11, 9)]) ∧
    (((GameOfLife.new 20 20).starting_position.bind (fun g0 => g0.updateN 4)).map liveList
        = some [(8, 8), (8, 10), (9, 7), (9, 10), (10, 7), (10, 10), (11, 8), (11, 9)]) :=
  ⟨by decide, by decide⟩

/-! ### Construction never fails (C9) -/

/-- C9 counterexample: `new` has no failure path at all — called with
width 0 (a non-positive dimension) it still returns a grid (5 rows of 0
cells), instead of failing with a configuration error. -/
theorem C9_counterexample :
    GameOfLife.new 0 5 = { width := 0, height := 5, cells := [[], [], [], [], []] } ∧
    (GameOfLife.new 0 5).wf :=
  ⟨by decide, by decide⟩

/-- C9 amended: `new` performs no validation: for every width and height,
including zero, it succeeds and returns the all-dead grid of that shape
(zero dimensions are a caller contract violation, not a checked error). -/
theorem C9_amended_new_never_validates (w h : Nat) :
    (GameOfLife.new w h).width = w ∧ (GameOfLife.new w h).height = h ∧
    (GameOfLife.new w h).wf ∧ ∀ r c, cellAt (GameOfLife.new w h) r c = false :=
  ⟨rfl, rfl, new_wf w h, cellAt_new w h⟩
